import Mathlib

/-!
# Verification of `openfisca_survey_manager/surveys.py`

A shallow embedding of the `Survey` class of
`openfisca_survey_manager/surveys.py` (Python 2), together with proofs of the
specification claims about it.

Modelling conventions:
* Python values that appear in this module (strings, `None`, numbers and
  string-keyed dicts) are embedded as `PyVal`; Python dicts are association
  lists in insertion order with unique keys (uniqueness is carried as a
  hypothesis where a proof needs it).
* Python exceptions (`AssertionError`, `TypeError`, `KeyError`, and the
  bare `Exception` raised by `get_values` for missing variables) are the
  constructors of `PyErr`; fallible methods return `Except PyErr _`.
  The spec's names map as: `InvalidArgument` = `assertionError`,
  `NotFound` = `keyError`, `MissingVariables` = `missingVariables`.
* The external HDF store is passed explicitly as a `Store` argument
  (the Python code opens `HDFStore(self.hdf5_file_path)`); a `DataFrame`
  is its ordered list of named columns.
* The class attribute `tables_index` is never assigned on an instance by
  any code path, so every attribute read `self.tables_index` reaches the
  single class-level dict; it is modelled as the field of `PyWorld`,
  a state shared by all `Survey` instances.
-/

/-- A Python value as used by `surveys.py`: `None`, a string, a number, or a
string-keyed dict (kept in insertion order, as an association list). -/
inductive PyVal where
  | none
  | str (s : String)
  | int (n : Int)
  | vdict (entries : List (String × PyVal))

/-- The exceptions the module can raise. `missingVariables` models the
`Exception("The following variable(s) {} are missing")` of `get_values`
and carries the missing names. -/
inductive PyErr where
  | assertionError
  | typeError
  | keyError
  | missingVariables (missing : List String)
deriving DecidableEq

/-- Python dict read `d.get(k)` / `d[k]`: the value at the first (unique)
matching key. -/
def dget {α : Type} : List (String × α) → String → Option α
  | [], _ => Option.none
  | (k, v) :: rest, key => if k = key then some v else dget rest key

/-- Python dict write `d[k] = v`: overwrite in place if the key is present
(keeping its position), else append at the end (insertion order). -/
def dset {α : Type} : List (String × α) → String → α → List (String × α)
  | [], key, v => [(key, v)]
  | (k, w) :: rest, key, v =>
    if k = key then (k, v) :: rest else (k, w) :: dset rest key v

/-- Python membership test `k in d`. -/
def dmem {α : Type} (d : List (String × α)) (key : String) : Bool :=
  (dget d key).isSome

/-- The keys of a dict, in insertion order (Python `for k in d`). -/
def dkeys {α : Type} (d : List (String × α)) : List String :=
  d.map Prod.fst

/-- A dict has unique keys (always true of a real Python dict). -/
abbrev NodupKeys {α : Type} (d : List (String × α)) : Prop :=
  (dkeys d).Nodup

/-- Code-point comparison of strings as lists of characters: Python 2's
lexicographic `<` on strings. -/
def chLt : List Char → List Char → Bool
  | [], [] => false
  | [], _ :: _ => true
  | _ :: _, [] => false
  | a :: as, b :: bs =>
    if a.toNat < b.toNat then true
    else if b.toNat < a.toNat then false
    else chLt as bs

/-- Python string `a < b` (code-point lexicographic). -/
def strLt (a b : String) : Bool := chLt a.data b.data

/-- Python string `a <= b`. -/
def strLe (a b : String) : Bool := !(strLt b a)

/-- Stable insertion of an entry into a key-sorted dict: the entry goes in
front of the first strictly greater key. -/
def sortInsert {α : Type} (p : String × α) : List (String × α) → List (String × α)
  | [] => [p]
  | q :: rest => if strLt p.1 q.1 then p :: q :: rest else q :: sortInsert p rest

/-- Python `sorted(d.iteritems())`: the entries of a dict sorted by key
(`sorted` compares the `(key, value)` tuples, but keys of a dict are unique,
so only keys are ever compared; insertion sort here, stable like Python's). -/
def dsorted {α : Type} : List (String × α) → List (String × α)
  | [] => []
  | p :: rest => sortInsert p (dsorted rest)

/-- The `Survey` object: its five attributes after construction.  The class
defaults (`hdf5_file_path = None` etc.) are only visible through an instance
until `__init__` assigns the field, and `__init__` always runs, so each field
holds the value the constructor (or a later assignment) gave it.
`tables_index` is deliberately absent: no code path ever assigns it on an
instance, so it stays the class-level shared dict, modelled by `PyWorld`. -/
structure Survey where
  name : PyVal
  label : PyVal
  hdf5_file_path : PyVal
  tables : PyVal
  informations : List (String × PyVal)

/-- The class-level mutable state of `Survey`: the `tables_index` dict,
created once at class definition time and shared by every instance. -/
structure PyWorld where
  tables_index : List (String × List String)
deriving DecidableEq

/-- The `tables_index` observable through an instance: Python attribute
lookup finds no instance attribute (none is ever assigned) and falls through
to the class attribute, the same dict for every instance. -/
def Survey.tablesIndexOf (_s : Survey) (w : PyWorld) : List (String × List String) :=
  w.tables_index

/-- `Survey.__init__(self, name=None, label=None, hdf5_file_path=None, **kwargs)`:
asserts `name is not None`, sets `self.tables = dict()`, assigns `label` and
`hdf5_file_path` when given (leaving the class default `None` otherwise, which
is observably the same as assigning them), and sets `self.informations = kwargs`. -/
def Survey.init (name : PyVal := .none) (label : PyVal := .none)
    (hdf5_file_path : PyVal := .none) (kwargs : List (String × PyVal) := []) :
    Except PyErr Survey :=
  match name with
  | .none => .error .assertionError
  | _ => .ok { name := name, label := label, hdf5_file_path := hdf5_file_path,
               tables := .vdict [], informations := kwargs }

/-- A JSON document as `create_from_json` receives it: a parsed dict.
`doc.get(k)` yields `None` both for an absent key and for a null value,
so both are `PyVal.none` here. -/
def jget (doc : List (String × PyVal)) (key : String) : PyVal :=
  (dget doc key).getD .none

/-- `Survey.create_from_json(survey_json)`: calls
`cls(name=…, label=…, hdf5_file_path=…, **survey_json.get('informations'))`
and then assigns `self.tables = survey_json.get('tables')`.
Spreading `**` a value that is not a mapping (for instance the `None` that
`.get` returns when the key is absent) raises `TypeError`, as does a key of
`informations` colliding with one of the named parameters. -/
def Survey.create_from_json (doc : List (String × PyVal)) : Except PyErr Survey :=
  match jget doc "informations" with
  | .vdict info =>
    if dmem info "name" || dmem info "label" || dmem info "hdf5_file_path" then
      .error .typeError
    else
      match Survey.init (jget doc "name") (jget doc "label")
          (jget doc "hdf5_file_path") info with
      | .error e => .error e
      | .ok s => .ok { s with tables := jget doc "tables" }
  | _ => .error .typeError

/-- `Survey.to_json()`: an `OrderedDict` whose keys are inserted in exactly
this order: `hdf5_file_path`, `label`, `name`, `tables`, `informations`;
the `tables` and `informations` entries are dicts rebuilt from
`sorted(….iteritems())`.  `sorted(self.tables.iteritems())` requires
`self.tables` to be a dict (`AttributeError`, modelled as `typeError`,
when it is `None` or another non-dict). -/
def Survey.to_json (s : Survey) : Except PyErr (List (String × PyVal)) :=
  match s.tables with
  | .vdict tbl =>
    .ok [("hdf5_file_path", s.hdf5_file_path),
         ("label", s.label),
         ("name", s.name),
         ("tables", .vdict (dsorted tbl)),
         ("informations", .vdict (dsorted s.informations))]
  | _ => .error .typeError

/-- A table read from the HDF store: its ordered, named columns.  Only the
column structure matters to this module, so a data frame is its list of
(column name, column data) pairs. -/
abbrev DataFrame := List (String × List PyVal)

/-- The external HDF store backing a survey: table key → data frame.
The Python code re-opens `HDFStore(self.hdf5_file_path)` on each call; the
store contents are passed explicitly here. -/
abbrev Store := List (String × DataFrame)

/-- The inner loop of `insert_table`:
`for key, val in kwargs.iteritems(): self.tables[name][key] = val`.
An entry at `name` that is not a dict makes the item assignment raise
`TypeError`.  (Python iterates `kwargs` in unspecified dict order; the model
iterates the given list order — the resulting mapping is the same whenever
the kwargs keys are distinct.) -/
def insertPairs (tbl : List (String × PyVal)) (name : String) :
    List (String × PyVal) → Except PyErr (List (String × PyVal))
  | [] => .ok tbl
  | (key, val) :: rest =>
    match dget tbl name with
    | some (.vdict attrs) =>
      insertPairs (dset tbl name (.vdict (dset attrs key val))) name rest
    | _ => .error .typeError

/-- `Survey.insert_table(name=None, **kwargs)`: if `name` is not yet a key of
`self.tables`, create an empty dict for it; then write each kwargs pair into
that table's attribute dict.  `self.tables` must be a dict (`TypeError`
otherwise, e.g. when it is `None`). -/
def Survey.insert_table (s : Survey) (name : String)
    (kwargs : List (String × PyVal) := []) : Except PyErr Survey :=
  match s.tables with
  | .vdict tbl =>
    let tbl := if dmem tbl name then tbl else dset tbl name (.vdict [])
    match insertPairs tbl name kwargs with
    | .ok tbl => .ok { s with tables := .vdict tbl }
    | .error e => .error e
  | _ => .error .typeError

/-- `Survey.get_columns(table=None)`: asserts `table is not None`, opens the
store, asserts `table in store`, and returns `list(store[table].columns)`. -/
def Survey.get_columns (store : Store) (_s : Survey) (table : Option String) :
    Except PyErr (List String) :=
  match table with
  | Option.none => .error .assertionError
  | some t =>
    match dget store t with
    | some df => .ok (dkeys df)
    | Option.none => .error .assertionError

/-- The loop of `find_tables`: for each table name, use the cached column
list in `tables_index` or compute it with `get_columns` and cache it; append
the table name to the result when the variable occurs in the column list.
The final `Nat` is instrumentation only: it counts how many times
`get_columns` was invoked (the column-index computations), and is not part
of the Python return value. -/
def findLoop (store : Store) (s : Survey) (v : String) :
    List String → List (String × List String) → List String → Nat →
    Except PyErr (List String × List (String × List String) × Nat)
  | [], tidx, acc, n => .ok (acc, tidx, n)
  | t :: rest, tidx, acc, n =>
    match dget tidx t with
    | some cols =>
      findLoop store s v rest tidx (if cols.contains v then acc ++ [t] else acc) n
    | Option.none =>
      match Survey.get_columns store s (some t) with
      | .error e => .error e
      | .ok cols =>
        findLoop store s v rest (dset tidx t cols)
          (if cols.contains v then acc ++ [t] else acc) (n + 1)

/-- `Survey.find_tables(variable=None, tables=None)`: asserts the variable is
given; defaults `tables` to the keys of `self.tables` (iterating a dict
yields its keys; a non-dict `self.tables` would fail, modelled `typeError`);
then runs the caching loop over the shared class-level `tables_index` of
`PyWorld`.  Returns the matching table names in input order, the updated
world, and the instrumentation count of column-index computations. -/
def Survey.find_tables (store : Store) (w : PyWorld) (s : Survey)
    («variable» : Option String := Option.none)
    (tables : Option (List String) := Option.none) :
    Except PyErr (List String × PyWorld × Nat) :=
  match «variable» with
  | Option.none => .error .assertionError
  | some v =>
    match tables with
    | some ts =>
      (findLoop store s v ts (s.tablesIndexOf w) [] 0).map
        (fun r => (r.1, PyWorld.mk r.2.1, r.2.2))
    | Option.none =>
      match s.tables with
      | .vdict tbl =>
        (findLoop store s v (dkeys tbl) (s.tablesIndexOf w) [] 0).map
          (fun r => (r.1, PyWorld.mk r.2.1, r.2.2))
      | _ => .error .typeError

/-- ASCII lowercasing of one character: Python 2 `str.lower()` lowercases
exactly the bytes `A`–`Z`. -/
def pyLowerChar (c : Char) : Char :=
  if 65 ≤ c.toNat ∧ c.toNat ≤ 90 then Char.ofNat (c.toNat + 32) else c

/-- Python 2 `str.lower()`. -/
def pyLower (s : String) : String := String.mk (s.data.map pyLowerChar)

/-- The lowercase pass of `get_values`:
`columns = dict((c, c.lower()) for c in df); df.rename(columns=columns)` —
every column label is mapped to its lowercase form (the comprehension's keys
are the current labels, so each column is renamed independently). -/
def lowerCols (df : DataFrame) : DataFrame :=
  df.map (fun c => (pyLower c.1, c.2))

/-- `ident_re = re.compile(u"(?i)ident\d{2,4}$")`, used via `re.match`:
anchored at the start, the string must be a case-insensitive `ident`
followed by 2 to 4 ASCII digits reaching the end (`$` in Python also
matches just before one final newline; `\d` is ASCII `0`–`9` for a pattern
compiled without `re.UNICODE`).  Backtracking over the greedy `{2,4}` makes
the match equivalent to: total length between 7 and 9, prefix `ident` up to
case, all-digit remainder. -/
def identMatch (s : String) : Bool :=
  let cs := s.data
  let cs := if cs.getLast? = some '\n' then cs.dropLast else cs
  decide (7 ≤ cs.length) && decide (cs.length ≤ 9) &&
    ((cs.take 5).map pyLowerChar == "ident".data) && (cs.drop 5).all Char.isDigit

/-- The rename-ident pass of `get_values`: scan the columns in order; at the
first label matching `ident_re`, rename that column to `ident` and `break`.
(`df.rename(columns={c: "ident"})` renames the columns labelled `c`; with
distinct labels that is exactly the column found.) -/
def renameIdentFirst : DataFrame → DataFrame
  | [] => []
  | (c, d) :: rest =>
    if identMatch c then ("ident", d) :: rest
    else (c, d) :: renameIdentFirst rest

/-- The table-resolution step of `get_values` (its `try`/`except KeyError`):
`df = store[table]`, and on `KeyError`,
`df = store[self.tables[table]["Rdata_table"]]`.  Exceptions raised inside
the `except` clause propagate: a missing registry entry or missing
`Rdata_table` key raises `KeyError`; subscripting a non-dict (`self.tables`
being `None`, or a non-dict entry/attribute value used as a store key)
raises `TypeError`. -/
def Survey.resolve_table (store : Store) (s : Survey) (table : String) :
    Except PyErr DataFrame :=
  match dget store table with
  | some df => .ok df
  | Option.none =>
    match s.tables with
    | .vdict tbl =>
      match dget tbl table with
      | some (.vdict attrs) =>
        match dget attrs "Rdata_table" with
        | some (.str r) =>
          match dget store r with
          | some df => .ok df
          | Option.none => .error .keyError
        | some _ => .error .typeError
        | Option.none => .error .keyError
      | some _ => .error .typeError
      | Option.none => .error .keyError
    | _ => .error .typeError

/-- A Python `set(l)` realised as a duplicate-free list.  Python's set
iteration order is unspecified; this model keeps, for each element, its
last occurrence position — the theorems using it only ever rely on
membership. -/
def pySetList : List String → List String
  | [] => []
  | v :: rest =>
    let r := pySetList rest
    if r.contains v then r else v :: r

/-- The column names the store holds for a table (empty for an absent
table); a convenience for stating theorems about `find_tables`. -/
def storeCols (store : Store) (t : String) : List String :=
  dkeys ((dget store t).getD [])

/-- `Survey.get_values(variables=None, table=None, lowercase=True,
rename_ident=True)`: resolve the physical table, lowercase the column
labels if asked, rename the first ident-like column if asked; with no
`variables` return the whole frame; otherwise fail on
`set(variables) - set(df.columns)` being non-empty, else return
`df[list(set(variables).intersection(df.columns))]`.
Python's `set` iteration order is unspecified; the model realises both the
difference and the intersection in first-occurrence order of `variables`,
and the theorems about them are order-insensitive (set membership only). -/
def Survey.get_values (store : Store) (s : Survey)
    («variables» : Option (List String) := Option.none) (table : String := "")
    (lowercase : Bool := true) (rename_ident : Bool := true) :
    Except PyErr DataFrame :=
  match Survey.resolve_table store s table with
  | .error e => .error e
  | .ok df =>
    let df := if lowercase then lowerCols df else df
    let df := if rename_ident then renameIdentFirst df else df
    match «variables» with
    | Option.none => .ok df
    | some vars =>
      let cols := dkeys df
      let diff := (pySetList vars).filter (fun v => !(cols.contains v))
      if diff = [] then
        let sel := (pySetList vars).filter (fun v => cols.contains v)
        .ok (sel.map (fun v => (v, (dget df v).getD [])))
      else .error (.missingVariables diff)

/-- A `tables_index` cache is coherent with a store when every cached column
list is the column list of that table in the store. -/
def Coherent (store : Store) (tidx : List (String × List String)) : Prop :=
  ∀ t cs, dget tidx t = some cs → ∃ df, dget store t = some df ∧ cs = dkeys df

/-! ## Dictionary lemmas -/

theorem dget_dset_self {α : Type} (d : List (String × α)) (k : String) (v : α) :
    dget (dset d k v) k = some v := by
  induction d with
  | nil => simp [dset, dget]
  | cons p rest ih =>
    obtain ⟨k', w⟩ := p
    by_cases h : k' = k
    · subst h; simp [dset, dget]
    · simp [dset, dget, h, ih]

theorem dget_dset_ne {α : Type} (d : List (String × α)) {k k' : String} (v : α)
    (h : k' ≠ k) : dget (dset d k v) k' = dget d k' := by
  induction d with
  | nil => simp [dset, dget, Ne.symm h]
  | cons p rest ih =>
    obtain ⟨a, w⟩ := p
    by_cases ha : a = k
    · subst ha
      simp [dset, dget, Ne.symm h]
    · simp only [dset, if_neg ha, dget]
      by_cases ha' : a = k'
      · simp [ha']
      · simp [ha', ih]

theorem mem_dkeys_iff {α : Type} {d : List (String × α)} {k : String} :
    k ∈ dkeys d ↔ (dget d k).isSome := by
  induction d with
  | nil => simp [dkeys, dget]
  | cons p rest ih =>
    obtain ⟨a, w⟩ := p
    by_cases ha : a = k
    · subst ha; simp [dkeys, dget]
    · have hstep : k ∈ dkeys ((a, w) :: rest) ↔ k ∈ dkeys rest := by
        simp [dkeys, Ne.symm ha]
      rw [hstep, ih]
      simp only [dget, if_neg ha]

theorem dget_eq_none_iff {α : Type} {d : List (String × α)} {k : String} :
    dget d k = Option.none ↔ k ∉ dkeys d := by
  rw [mem_dkeys_iff]
  cases h : dget d k <;> simp

theorem dmem_iff {α : Type} {d : List (String × α)} {k : String} :
    dmem d k = true ↔ k ∈ dkeys d := by
  rw [dmem, mem_dkeys_iff]

theorem dmem_false_iff {α : Type} {d : List (String × α)} {k : String} :
    dmem d k = false ↔ k ∉ dkeys d := by
  rw [← dmem_iff]
  cases dmem d k <;> simp

theorem dget_mem {α : Type} {d : List (String × α)} {k : String} {v : α}
    (h : dget d k = some v) : (k, v) ∈ d := by
  induction d with
  | nil => simp [dget] at h
  | cons p rest ih =>
    obtain ⟨a, w⟩ := p
    by_cases ha : a = k
    · subst ha
      simp [dget] at h
      simp [h]
    · simp [dget, ha] at h
      simp [ih h]

theorem dget_of_mem {α : Type} {d : List (String × α)} (hnd : NodupKeys d)
    {k : String} {v : α} (h : (k, v) ∈ d) : dget d k = some v := by
  induction d with
  | nil => simp at h
  | cons p rest ih =>
    obtain ⟨a, w⟩ := p
    rw [NodupKeys, dkeys] at hnd
    simp only [List.map_cons, List.nodup_cons] at hnd
    rcases List.mem_cons.mp h with heq | hmem
    · obtain ⟨rfl, rfl⟩ := Prod.mk.injEq .. ▸ heq
      simp [dget]
    · have hk : k ∈ dkeys rest := by
        rw [dkeys]
        exact List.mem_map.mpr ⟨(k, v), hmem, rfl⟩
      have ha : a ≠ k := fun hh => hnd.1 (hh ▸ hk)
      simpa [dget, ha] using ih hnd.2 hmem

theorem NodupKeys.perm {α : Type} {d d' : List (String × α)} (hp : d.Perm d')
    (h : NodupKeys d) : NodupKeys d' :=
  ((hp.map Prod.fst).nodup_iff).mp h

theorem dget_congr_perm {α : Type} {d d' : List (String × α)} (hp : d.Perm d')
    (hnd : NodupKeys d) (k : String) : dget d' k = dget d k := by
  cases h : dget d k with
  | some v => exact dget_of_mem (NodupKeys.perm hp hnd) (hp.mem_iff.mp (dget_mem h))
  | none =>
    rw [dget_eq_none_iff] at h ⊢
    exact fun hc => h ((hp.map Prod.fst).mem_iff.mpr hc)

theorem dset_length_of_fresh {α : Type} {d : List (String × α)} {k : String}
    (v : α) (h : dmem d k = false) : (dset d k v).length = d.length + 1 := by
  induction d with
  | nil => simp [dset]
  | cons p rest ih =>
    obtain ⟨a, w⟩ := p
    rw [dmem, dget] at h
    by_cases ha : a = k
    · simp [ha] at h
    · rw [if_neg ha] at h
      simp [dset, ha, ih h]

theorem dkeys_dset_fresh {α : Type} {d : List (String × α)} {k : String}
    (v : α) (h : dmem d k = false) : dkeys (dset d k v) = dkeys d ++ [k] := by
  induction d with
  | nil => simp [dset, dkeys]
  | cons p rest ih =>
    obtain ⟨a, w⟩ := p
    rw [dmem, dget] at h
    by_cases ha : a = k
    · simp [ha] at h
    · rw [if_neg ha] at h
      simp [dset, ha, dkeys] at ih ⊢
      exact ih h

theorem nodupKeys_dset_fresh {α : Type} {d : List (String × α)} {k : String}
    (v : α) (h : dmem d k = false) (hnd : NodupKeys d) :
    NodupKeys (dset d k v) := by
  rw [NodupKeys, dkeys_dset_fresh v h]
  rw [dmem_false_iff] at h
  rw [List.nodup_append]
  refine ⟨hnd, List.nodup_singleton k, ?_⟩
  intro a ha hb
  simp only [List.mem_singleton] at hb
  subst hb
  exact h ha

/-! ## Order and sorting lemmas -/

theorem chLt_asymm : ∀ {a b : List Char}, chLt a b = true → chLt b a = false := by
  intro a
  induction a with
  | nil =>
    intro b h
    cases b with
    | nil => simp [chLt] at h
    | cons y bs => simp [chLt]
  | cons x as ih =>
    intro b h
    cases b with
    | nil => simp [chLt] at h
    | cons y bs =>
      simp only [chLt] at h ⊢
      by_cases hxy : x.toNat < y.toNat
      · rw [if_neg (by omega), if_pos hxy]
      · rw [if_neg hxy] at h
        by_cases hyx : y.toNat < x.toNat
        · rw [if_pos hyx] at h; exact absurd h (by simp)
        · rw [if_neg hyx] at h
          rw [if_neg hyx, if_neg hxy]
          exact ih h

theorem chLt_linear : ∀ {a b c : List Char},
    chLt c a = true → chLt c b = true ∨ chLt b a = true := by
  intro a
  induction a with
  | nil =>
    intro b c h
    cases c with
    | nil => simp [chLt] at h
    | cons z cs => simp [chLt] at h
  | cons x as ih =>
    intro b c h
    cases c with
    | nil =>
      cases b with
      | nil => right; exact h
      | cons y bs => left; simp [chLt]
    | cons z cs =>
      cases b with
      | nil => right; simp [chLt]
      | cons y bs =>
        simp only [chLt] at h ⊢
        by_cases hzy : z.toNat < y.toNat
        · left; rw [if_pos hzy]
        · by_cases hzx : z.toNat < x.toNat
          · right
            rw [if_pos (show y.toNat < x.toNat by omega)]
          · rw [if_neg hzx] at h
            by_cases hxz : x.toNat < z.toNat
            · rw [if_pos hxz] at h
              exact absurd h (by simp)
            · rw [if_neg hxz] at h
              by_cases hyx : y.toNat < x.toNat
              · right; rw [if_pos hyx]
              · have hxy : ¬ x.toNat < y.toNat := by omega
                rcases ih h with hl | hr
                · left
                  rw [if_neg hzy, if_neg (show ¬ y.toNat < z.toNat by omega)]
                  exact hl
                · right
                  rw [if_neg hyx, if_neg hxy]
                  exact hr

theorem strLe_of_strLt {a b : String} (h : strLt a b = true) : strLe a b = true := by
  rw [strLe, strLt] at *
  rw [chLt_asymm h]
  rfl

theorem strLe_of_not_strLt {a b : String} (h : strLt b a = false) :
    strLe a b = true := by
  rw [strLe, h]
  rfl

theorem strLe_trans {a b c : String} (hab : strLe a b = true)
    (hbc : strLe b c = true) : strLe a c = true := by
  rw [strLe] at *
  rcases hlt : strLt c a with _ | _
  · rfl
  · rcases chLt_linear (a := a.data) (b := b.data) (c := c.data) hlt with h | h
    · rw [show strLt c b = true from h] at hbc; exact absurd hbc (by simp)
    · rw [show strLt b a = true from h] at hab; exact absurd hab (by simp)

theorem sortInsert_perm {α : Type} (p : String × α) (l : List (String × α)) :
    (sortInsert p l).Perm (p :: l) := by
  induction l with
  | nil => exact List.Perm.refl _
  | cons q rest ih =>
    rw [sortInsert]
    by_cases h : strLt p.1 q.1 = true
    · rw [if_pos h]
    · rw [if_neg h]
      exact (ih.cons q).trans (List.Perm.swap p q rest)

theorem mem_sortInsert {α : Type} {x p : String × α} {l : List (String × α)} :
    x ∈ sortInsert p l ↔ x = p ∨ x ∈ l := by
  rw [(sortInsert_perm p l).mem_iff, List.mem_cons]

theorem sortInsert_pairwise {α : Type} (p : String × α) {l : List (String × α)}
    (h : List.Pairwise (fun x y : String × α => strLe x.1 y.1 = true) l) :
    List.Pairwise (fun x y : String × α => strLe x.1 y.1 = true) (sortInsert p l) := by
  induction l with
  | nil => simp [sortInsert]
  | cons q rest ih =>
    rw [List.pairwise_cons] at h
    obtain ⟨hq, hrest⟩ := h
    rw [sortInsert]
    by_cases hlt : strLt p.1 q.1 = true
    · rw [if_pos hlt]
      refine List.Pairwise.cons ?_ (List.Pairwise.cons hq hrest)
      intro x hx
      rcases List.mem_cons.mp hx with rfl | hx'
      · exact strLe_of_strLt hlt
      · exact strLe_trans (strLe_of_strLt hlt) (hq x hx')
    · rw [if_neg hlt]
      refine List.Pairwise.cons ?_ (ih hrest)
      intro x hx
      rcases mem_sortInsert.mp hx with rfl | hx'
      · exact strLe_of_not_strLt (Bool.eq_false_iff.mpr hlt)
      · exact hq x hx'

theorem dsorted_perm {α : Type} (d : List (String × α)) : (dsorted d).Perm d := by
  induction d with
  | nil => exact List.Perm.refl _
  | cons p rest ih =>
    exact (sortInsert_perm p (dsorted rest)).trans (ih.cons p)

theorem dsorted_pairwise {α : Type} (d : List (String × α)) :
    List.Pairwise (fun x y : String × α => strLe x.1 y.1 = true) (dsorted d) := by
  induction d with
  | nil => simp [dsorted]
  | cons p rest ih => exact sortInsert_pairwise p ih

theorem dget_dsorted {α : Type} {d : List (String × α)} (hnd : NodupKeys d)
    (k : String) : dget (dsorted d) k = dget d k :=
  dget_congr_perm (dsorted_perm d).symm hnd k

theorem dmem_dsorted {α : Type} (d : List (String × α)) (k : String) :
    dmem (dsorted d) k = dmem d k := by
  rcases h : dmem d k with _ | _
  · rw [dmem_false_iff] at h ⊢
    exact fun hc => h (((dsorted_perm d).map Prod.fst).mem_iff.mp hc)
  · rw [dmem_iff] at h ⊢
    exact ((dsorted_perm d).map Prod.fst).mem_iff.mpr h

/-! ## Lemmas about `pySetList`, column projection, and attribute merging -/

theorem mem_pySetList {a : String} : ∀ {l : List String}, a ∈ pySetList l ↔ a ∈ l := by
  intro l
  induction l with
  | nil => simp [pySetList]
  | cons v rest ih =>
    simp only [pySetList]
    by_cases hc : (pySetList rest).contains v = true
    · rw [if_pos hc, ih, List.mem_cons]
      constructor
      · exact fun h => Or.inr h
      · rintro (rfl | h)
        · exact ih.mp (List.elem_iff.mp hc)
        · exact h
    · rw [if_neg hc, List.mem_cons, List.mem_cons, ih]

theorem nodup_pySetList : ∀ (l : List String), (pySetList l).Nodup := by
  intro l
  induction l with
  | nil => simp [pySetList]
  | cons v rest ih =>
    simp only [pySetList]
    by_cases hc : (pySetList rest).contains v = true
    · rw [if_pos hc]; exact ih
    · rw [if_neg hc]
      exact List.Nodup.cons (fun h => hc (List.elem_iff.mpr h)) ih

theorem dget_map_pair {α : Type} (f : String → α) :
    ∀ (sel : List String) (k : String),
    dget (sel.map (fun v => (v, f v))) k = if k ∈ sel then some (f k) else Option.none := by
  intro sel
  induction sel with
  | nil => intro k; simp [dget]
  | cons v rest ih =>
    intro k
    by_cases hv : v = k
    · subst hv; simp [dget]
    · simp only [List.map_cons, dget, if_neg hv, ih, List.mem_cons]
      by_cases hm : k ∈ rest
      · simp [hm]
      · simp [hm, Ne.symm hv]

theorem dget_foldl_dset {α : Type} :
    ∀ (l : List (String × α)) (m₀ : List (String × α)), NodupKeys l →
    ∀ k, dget (l.foldl (fun m kv => dset m kv.1 kv.2) m₀) k =
      (dget l k).or (dget m₀ k) := by
  intro l
  induction l with
  | nil => intro m₀ _ k; simp [dget, Option.none_or]
  | cons p rest ih =>
    intro m₀ hnd k
    obtain ⟨k₁, v₁⟩ := p
    rw [NodupKeys, dkeys] at hnd
    simp only [List.map_cons, List.nodup_cons] at hnd
    rw [List.foldl_cons]
    rw [ih (dset m₀ k₁ v₁) hnd.2 k]
    by_cases hk : k = k₁
    · subst hk
      have hnone : dget rest k = Option.none := by
        rw [dget_eq_none_iff]
        exact hnd.1
      rw [hnone, Option.none_or, dget_dset_self]
      simp [dget]
    · rw [dget_dset_ne _ _ hk]
      simp only [dget, if_neg (fun hh : k₁ = k => hk hh.symm)]

theorem insertPairs_spec {name : String} :
    ∀ (kwargs tbl m₀ : List (String × PyVal)),
    dget tbl name = some (.vdict m₀) →
    ∃ tbl', insertPairs tbl name kwargs = .ok tbl' ∧
      dget tbl' name =
        some (.vdict (kwargs.foldl (fun m kv => dset m kv.1 kv.2) m₀)) ∧
      ∀ k, k ≠ name → dget tbl' k = dget tbl k := by
  intro kwargs
  induction kwargs with
  | nil =>
    intro tbl m₀ h
    exact ⟨tbl, rfl, by simpa using h, fun k _ => rfl⟩
  | cons kv rest ih =>
    intro tbl m₀ h
    obtain ⟨key, val⟩ := kv
    have hstep : dget (dset tbl name (.vdict (dset m₀ key val))) name =
        some (.vdict (dset m₀ key val)) := dget_dset_self ..
    obtain ⟨tbl', heq, hget, hother⟩ := ih (dset tbl name (.vdict (dset m₀ key val))) _ hstep
    refine ⟨tbl', ?_, ?_, ?_⟩
    · rw [insertPairs, h]
      exact heq
    · simpa using hget
    · intro k hk
      rw [hother k hk, dget_dset_ne _ _ hk]

theorem renameIdentFirst_append (pre : DataFrame) (c : String) (d : List PyVal)
    (post : DataFrame) (hpre : ∀ p ∈ pre, identMatch p.1 = false)
    (hc : identMatch c = true) :
    renameIdentFirst (pre ++ (c, d) :: post) = pre ++ ("ident", d) :: post := by
  induction pre with
  | nil => simp [renameIdentFirst, hc]
  | cons p pre' ih =>
    obtain ⟨pc, pd⟩ := p
    have hp : identMatch pc = false := hpre (pc, pd) (List.mem_cons_self _ _)
    rw [List.cons_append, renameIdentFirst, if_neg (by simp [hp]), List.cons_append]
    rw [ih (fun q hq => hpre q (List.mem_cons_of_mem _ hq))]

/-! ## Lemmas about the `find_tables` loop -/

theorem findLoop_spec (store : Store) (s : Survey) (v : String) :
    ∀ (ts : List String) (tidx : List (String × List String))
      (acc : List String) (n : Nat),
    Coherent store tidx →
    (∀ t ∈ ts, (dget store t).isSome) →
    ∃ tidx' k,
      findLoop store s v ts tidx acc n =
        .ok (acc ++ ts.filter (fun t => (storeCols store t).contains v), tidx', n + k) ∧
      Coherent store tidx' ∧
      (∀ t ∈ ts, (dget tidx' t).isSome) ∧
      (∀ t cs, dget tidx t = some cs → dget tidx' t = some cs) ∧
      tidx'.length = tidx.length + k ∧
      (NodupKeys tidx → NodupKeys tidx') := by
  intro ts
  induction ts with
  | nil =>
    intro tidx acc n hcoh _
    exact ⟨tidx, 0, by simp [findLoop], hcoh, by simp, fun t cs h => h, by simp,
      fun h => h⟩
  | cons t rest ih =>
    intro tidx acc n hcoh hres
    obtain ⟨df, hdf⟩ := Option.isSome_iff_exists.mp (hres t (List.mem_cons_self _ _))
    have hsc : storeCols store t = dkeys df := by rw [storeCols, hdf]; rfl
    have hacc : ∀ acc' : List String,
        (if (dkeys df).contains v then acc' ++ [t] else acc') ++
            rest.filter (fun u => (storeCols store u).contains v) =
          acc' ++ (t :: rest).filter (fun u => (storeCols store u).contains v) := by
      intro acc'
      rw [List.filter_cons]
      by_cases hv : (storeCols store t).contains v = true
      · rw [if_pos hv, if_pos (by rw [← hsc]; exact hv)]
        simp [List.append_assoc]
      · rw [if_neg hv, if_neg (by rw [← hsc]; exact hv)]
    cases hti : dget tidx t with
    | some cols =>
      obtain ⟨df', hdf', hcols⟩ := hcoh t cols hti
      rw [hdf] at hdf'
      cases hdf'
      obtain ⟨tidx', k, heq, hcoh', hall, hgrow, hlen, hnd⟩ :=
        ih tidx (if cols.contains v then acc ++ [t] else acc) n hcoh
          (fun u hu => hres u (List.mem_cons_of_mem _ hu))
      refine ⟨tidx', k, ?_, hcoh', ?_, hgrow, hlen, hnd⟩
      · simp only [findLoop, hti]
        rw [heq, hcols, hacc]
      · intro u hu
        rcases List.mem_cons.mp hu with rfl | hu'
        · rw [hgrow u cols hti]; rfl
        · exact hall u hu'
    | none =>
      have hgc : Survey.get_columns store s (some t) = .ok (dkeys df) := by
        rw [Survey.get_columns, hdf]
      have hfresh : dmem tidx t = false := by rw [dmem, hti]; rfl
      have hcoh₂ : Coherent store (dset tidx t (dkeys df)) := by
        intro t' cs h
        by_cases ht' : t' = t
        · subst ht'
          rw [dget_dset_self] at h
          cases h
          exact ⟨df, hdf, rfl⟩
        · rw [dget_dset_ne _ _ ht'] at h
          exact hcoh t' cs h
      obtain ⟨tidx', k, heq, hcoh', hall, hgrow, hlen, hnd⟩ :=
        ih (dset tidx t (dkeys df))
          (if (dkeys df).contains v then acc ++ [t] else acc) (n + 1) hcoh₂
          (fun u hu => hres u (List.mem_cons_of_mem _ hu))
      refine ⟨tidx', k + 1, ?_, hcoh', ?_, ?_, ?_, ?_⟩
      · simp only [findLoop, hti, hgc]
        rw [heq, hacc]
        have harith : n + 1 + k = n + (k + 1) := by omega
        rw [harith]
      · intro u hu
        rcases List.mem_cons.mp hu with rfl | hu'
        · rw [hgrow u (dkeys df) (dget_dset_self ..)]; rfl
        · exact hall u hu'
      · intro u cs h
        have hut : u ≠ t := by
          intro hh
          subst hh
          rw [hti] at h
          exact Option.noConfusion h
        exact hgrow u cs (by rw [dget_dset_ne _ _ hut]; exact h)
      · rw [hlen, dset_length_of_fresh _ hfresh]
        omega
      · intro h
        exact hnd (nodupKeys_dset_fresh _ hfresh h)

theorem findLoop_cached (store : Store) (s : Survey) (v : String) :
    ∀ (ts : List String) (tidx : List (String × List String))
      (acc : List String) (n : Nat),
    Coherent store tidx →
    (∀ t ∈ ts, (dget tidx t).isSome) →
    findLoop store s v ts tidx acc n =
      .ok (acc ++ ts.filter (fun t => (storeCols store t).contains v), tidx, n) := by
  intro ts
  induction ts with
  | nil => intro tidx acc n _ _; simp [findLoop]
  | cons t rest ih =>
    intro tidx acc n hcoh hcache
    obtain ⟨cols, hti⟩ :=
      Option.isSome_iff_exists.mp (hcache t (List.mem_cons_self _ _))
    obtain ⟨df, hdf, hcols⟩ := hcoh t cols hti
    have hsc : storeCols store t = cols := by rw [storeCols, hdf, hcols]; rfl
    simp only [findLoop, hti]
    rw [ih tidx (if cols.contains v then acc ++ [t] else acc) n hcoh
        (fun u hu => hcache u (List.mem_cons_of_mem _ hu)),
      List.filter_cons]
    by_cases hv : cols.contains v = true
    · rw [if_pos hv, if_pos (by rw [hsc]; exact hv)]
      simp [List.append_assoc]
    · rw [if_neg hv, if_neg (by rw [hsc]; exact hv)]

/-! ## Claim theorems -/

/-- C1, counterexample: two distinct freshly constructed surveys do not have
independent `tables_index` containers.  With the class cache empty, a
`find_tables` call made through the survey named `s1` (over a store holding
table `T` with column `x`) populates the cache, and the `tables_index`
observable through the distinct survey named `s2` changes from `[]` to
`[("T", ["x"])]` — refuting "never changes the tablesIndex observable
through the other". -/
theorem surveys_C1_counterexample :
    Survey.find_tables [("T", [("x", [])])] ⟨[]⟩
        ⟨.str "s1", .none, .none, .vdict [], []⟩ (some "x") (some ["T"]) =
      .ok (["T"], ⟨[("T", ["x"])]⟩, 1) ∧
    Survey.tablesIndexOf ⟨.str "s2", .none, .none, .vdict [], []⟩ ⟨[("T", ["x"])]⟩ ≠
      Survey.tablesIndexOf ⟨.str "s2", .none, .none, .vdict [], []⟩ ⟨[]⟩ :=
  ⟨rfl, by decide⟩

/-- C1, amended: `tables_index` is a single class-level mutable default
shared by every instance (`__init__` never creates an instance-scoped one),
so any two catalogs always observe the identical `tablesIndex`; a
`FindTables` call that populates the cache through one instance is therefore
observable through every other, as the concrete run shows. -/
theorem surveys_C1_shared_tables_index :
    (∀ (w : PyWorld) (s₁ s₂ : Survey),
      Survey.tablesIndexOf s₁ w = Survey.tablesIndexOf s₂ w) ∧
    Survey.find_tables [("T", [("x", [])])] ⟨[]⟩
        ⟨.str "s1", .none, .none, .vdict [], []⟩ (some "x") (some ["T"]) =
      .ok (["T"], ⟨[("T", ["x"])]⟩, 1) ∧
    Survey.tablesIndexOf ⟨.str "s2", .none, .none, .vdict [], []⟩
        ⟨[("T", ["x"])]⟩ = [("T", ["x"])] :=
  ⟨fun _ _ _ => rfl, rfl, rfl⟩

/-- C2, counterexample: constructing with the explicit empty-string name
succeeds (the code only asserts `name is not None`), contradicting the
claim that an empty name fails with `InvalidArgument`. -/
theorem surveys_C2_counterexample :
    Survey.init (.str "") .none .none [] =
      .ok ⟨.str "", .none, .none, .vdict [], []⟩ := rfl

/-- C2, amended: construction with an absent (`None`) name fails with
`InvalidArgument` (the `AssertionError`); construction with any provided
name value — the empty string included — succeeds and yields a catalog
with an empty per-instance table registry. -/
theorem surveys_C2_construct (label hdf5 : PyVal) (kwargs : List (String × PyVal)) :
    Survey.init .none label hdf5 kwargs = .error .assertionError ∧
    ∀ name : PyVal, name ≠ .none →
      Survey.init name label hdf5 kwargs =
        .ok ⟨name, label, hdf5, .vdict [], kwargs⟩ := by
  refine ⟨rfl, ?_⟩
  intro name hname
  cases name with
  | none => exact absurd rfl hname
  | str s => rfl
  | int n => rfl
  | vdict d => rfl

/-- C2, witness: the amended construction law at concrete inputs — the
nameless construction fails, and the empty-string name succeeds with an
empty registry. -/
theorem surveys_C2_witness :
    Survey.init .none .none .none [] = .error .assertionError ∧
    Survey.init (.str "") .none .none [] =
      .ok ⟨.str "", .none, .none, .vdict [], []⟩ :=
  ⟨(surveys_C2_construct .none .none []).1,
   (surveys_C2_construct .none .none []).2 (.str "")
     (fun h => PyVal.noConfusion h)⟩

/-- C10: deserialization requires the `informations` key — a document with
a valid name but no `informations` key makes `create_from_json` raise
(`**None` is a `TypeError`) instead of defaulting to an empty mapping; and
a document without a `tables` key yields a catalog whose table registry is
`None` (null), not an empty mapping. -/
theorem surveys_C10_from_json_requires_informations :
    (∀ (doc : List (String × PyVal)) (n : String),
      jget doc "name" = .str n → jget doc "informations" = .none →
      Survey.create_from_json doc = .error .typeError) ∧
    (∀ (doc : List (String × PyVal)) (n : String) (info : List (String × PyVal)),
      jget doc "name" = .str n → jget doc "informations" = .vdict info →
      dmem info "name" = false → dmem info "label" = false →
      dmem info "hdf5_file_path" = false →
      jget doc "tables" = .none →
      Survey.create_from_json doc =
        .ok ⟨.str n, jget doc "label", jget doc "hdf5_file_path", .none, info⟩) := by
  constructor
  · intro doc n _ hinfo
    simp only [Survey.create_from_json, hinfo]
  · intro doc n info hn hinfo h1 h2 h3 htb
    simp only [Survey.create_from_json, hinfo, h1, h2, h3, Bool.or_self,
      Bool.or_false, Bool.false_or, if_false, hn, Survey.init, htb]
    rfl

/-- C10, witness: the two deserialization behaviours at concrete documents:
`{"name": "s"}` (no `informations`) fails, and
`{"name": "s", "informations": {}}` (no `tables`) yields a null registry. -/
theorem surveys_C10_witness :
    Survey.create_from_json [("name", .str "s")] = .error .typeError ∧
    Survey.create_from_json [("name", .str "s"), ("informations", .vdict [])] =
      .ok ⟨.str "s", .none, .none, .none, []⟩ :=
  ⟨surveys_C10_from_json_requires_informations.1 [("name", .str "s")] "s" rfl rfl,
   surveys_C10_from_json_requires_informations.2
     [("name", .str "s"), ("informations", .vdict [])] "s" [] rfl rfl rfl rfl rfl rfl⟩

/-- C7: `to_json` produces a document whose top-level keys appear in exactly
the order `hdf5_file_path`, `label`, `name`, `tables`, `informations`, and
whose `tables` and `informations` entries are the registry and informations
mappings with their keys sorted lexicographically (sorted permutations of
the insertion-ordered dicts, whatever that insertion order was). -/
theorem surveys_C7_to_json_ordered (s : Survey) (tbl : List (String × PyVal))
    (htbl : s.tables = .vdict tbl) :
    ∃ doc : List (String × PyVal), Survey.to_json s = .ok doc ∧
      dkeys doc = ["hdf5_file_path", "label", "name", "tables", "informations"] ∧
      dget doc "tables" = some (.vdict (dsorted tbl)) ∧
      dget doc "informations" = some (.vdict (dsorted s.informations)) ∧
      List.Pairwise (fun p q : String × PyVal => strLe p.1 q.1 = true) (dsorted tbl) ∧
      (dsorted tbl).Perm tbl ∧
      List.Pairwise (fun p q : String × PyVal => strLe p.1 q.1 = true)
        (dsorted s.informations) ∧
      (dsorted s.informations).Perm s.informations := by
  refine ⟨[("hdf5_file_path", s.hdf5_file_path), ("label", s.label),
    ("name", s.name), ("tables", .vdict (dsorted tbl)),
    ("informations", .vdict (dsorted s.informations))],
    ?_, rfl, rfl, rfl, dsorted_pairwise tbl, dsorted_perm tbl,
    dsorted_pairwise s.informations, dsorted_perm s.informations⟩
  simp only [Survey.to_json, htbl]

/-- C7, witness: the document law at a concrete catalog whose registry and
informations were inserted in non-sorted order. -/
theorem surveys_C7_witness :
    (Survey.tables ⟨.str "s", .none, .str "p",
        .vdict [("b", .vdict []), ("a", .vdict [])], [("z", .int 1), ("a", .int 2)]⟩ =
      .vdict [("b", .vdict []), ("a", .vdict [])]) ∧
    (∃ doc : List (String × PyVal),
      Survey.to_json ⟨.str "s", .none, .str "p",
          .vdict [("b", .vdict []), ("a", .vdict [])],
          [("z", .int 1), ("a", .int 2)]⟩ = .ok doc ∧
      dkeys doc = ["hdf5_file_path", "label", "name", "tables", "informations"] ∧
      dget doc "tables" =
        some (PyVal.vdict (dsorted [("b", PyVal.vdict []), ("a", PyVal.vdict [])])) ∧
      dget doc "informations" =
        some (PyVal.vdict (dsorted [("z", PyVal.int 1), ("a", PyVal.int 2)])) ∧
      List.Pairwise (fun p q : String × PyVal => strLe p.1 q.1 = true)
        (dsorted [("b", PyVal.vdict []), ("a", PyVal.vdict [])]) ∧
      (dsorted [("b", PyVal.vdict []), ("a", PyVal.vdict [])]).Perm
        [("b", PyVal.vdict []), ("a", PyVal.vdict [])] ∧
      List.Pairwise (fun p q : String × PyVal => strLe p.1 q.1 = true)
        (dsorted [("z", PyVal.int 1), ("a", PyVal.int 2)]) ∧
      (dsorted [("z", PyVal.int 1), ("a", PyVal.int 2)]).Perm
        [("z", PyVal.int 1), ("a", PyVal.int 2)]) :=
  ⟨rfl, surveys_C7_to_json_ordered
    ⟨.str "s", .none, .str "p", .vdict [("b", .vdict []), ("a", .vdict [])],
      [("z", .int 1), ("a", .int 2)]⟩
    [("b", .vdict []), ("a", .vdict [])] rfl⟩

/-- C3: serialization round-trip — for a catalog with a dict registry, a
non-`None` name, duplicate-free keys, and informations keys clear of the
constructor's named parameters (which is true of every catalog the
constructor can build, since `**kwargs` can never capture them),
`create_from_json (to_json s)` succeeds and reconstructs a catalog with the
same name, label, store path, and with table registry and informations
equal as mappings to the originals (they are the key-sorted permutations). -/
theorem surveys_C3_roundtrip (nm lb hp : PyVal) (tbl info : List (String × PyVal))
    (hname : nm ≠ .none) (htnd : NodupKeys tbl) (hind : NodupKeys info)
    (hn : "name" ∉ dkeys info) (hl : "label" ∉ dkeys info)
    (hh : "hdf5_file_path" ∉ dkeys info) :
    ∃ doc : List (String × PyVal), Survey.to_json ⟨nm, lb, hp, .vdict tbl, info⟩ = .ok doc ∧
      Survey.create_from_json doc =
        .ok ⟨nm, lb, hp, .vdict (dsorted tbl), dsorted info⟩ ∧
      (∀ k, dget (dsorted tbl) k = dget tbl k) ∧
      (∀ k, dget (dsorted info) k = dget info k) := by
  refine ⟨[("hdf5_file_path", hp), ("label", lb), ("name", nm),
    ("tables", .vdict (dsorted tbl)), ("informations", .vdict (dsorted info))],
    rfl, ?_, fun k => dget_dsorted htnd k, fun k => dget_dsorted hind k⟩
  have h1 : dmem (dsorted info) "name" = false := by
    rw [dmem_dsorted]; exact dmem_false_iff.mpr hn
  have h2 : dmem (dsorted info) "label" = false := by
    rw [dmem_dsorted]; exact dmem_false_iff.mpr hl
  have h3 : dmem (dsorted info) "hdf5_file_path" = false := by
    rw [dmem_dsorted]; exact dmem_false_iff.mpr hh
  have hji : jget [("hdf5_file_path", hp), ("label", lb), ("name", nm),
      ("tables", .vdict (dsorted tbl)), ("informations", .vdict (dsorted info))]
      "informations" = .vdict (dsorted info) := rfl
  have hjn : jget [("hdf5_file_path", hp), ("label", lb), ("name", nm),
      ("tables", .vdict (dsorted tbl)), ("informations", .vdict (dsorted info))]
      "name" = nm := rfl
  simp only [Survey.create_from_json, hji, h1, h2, h3, Bool.or_self,
    Bool.or_false, Bool.false_or, if_false, hjn, Survey.init]
  cases nm with
  | none => exact absurd rfl hname
  | str t => rfl
  | int t => rfl
  | vdict t => rfl

/-- C3, witness: the round-trip law at a concrete catalog with unsorted
registry and informations. -/
theorem surveys_C3_witness :
    (PyVal.str "s" ≠ PyVal.none) ∧
    NodupKeys [("b", PyVal.vdict []), ("a", PyVal.vdict [])] ∧
    NodupKeys [("z", PyVal.int 1), ("a", PyVal.int 2)] ∧
    (∃ doc : List (String × PyVal), Survey.to_json ⟨.str "s", .none, .str "p",
        .vdict [("b", .vdict []), ("a", .vdict [])],
        [("z", .int 1), ("a", .int 2)]⟩ = .ok doc ∧
      Survey.create_from_json doc =
        .ok ⟨.str "s", .none, .str "p",
          .vdict (dsorted [("b", .vdict []), ("a", .vdict [])]),
          dsorted [("z", .int 1), ("a", .int 2)]⟩ ∧
      (∀ k, dget (dsorted [("b", PyVal.vdict []), ("a", PyVal.vdict [])]) k =
        dget [("b", PyVal.vdict []), ("a", PyVal.vdict [])] k) ∧
      (∀ k, dget (dsorted [("z", PyVal.int 1), ("a", PyVal.int 2)]) k =
        dget [("z", PyVal.int 1), ("a", PyVal.int 2)] k)) :=
  ⟨fun h => PyVal.noConfusion h, by decide, by decide,
   surveys_C3_roundtrip (.str "s") .none (.str "p")
     [("b", .vdict []), ("a", .vdict [])] [("z", .int 1), ("a", .int 2)]
     (fun h => PyVal.noConfusion h) (by decide) (by decide)
     (by decide) (by decide) (by decide)⟩

/-- C8: `insert_table` merge law — on a registry where `name` is fresh,
registering attributes `a` and then disjoint attributes `b` leaves the
table's attribute mapping equal to the union of both (left-biased `or`,
which is the plain union on disjoint keys); a further registration with an
already-present key overwrites just that value; and registering a fresh
name with no attributes creates exactly an empty attribute mapping. -/
theorem surveys_C8_register_table (nm lb hp : PyVal)
    (info tbl a b : List (String × PyVal)) (name : String)
    (hfresh : dmem tbl name = false)
    (ha : NodupKeys a) (hb : NodupKeys b)
    (hdisj : ∀ k, k ∈ dkeys a → k ∉ dkeys b) :
    ∃ t₁ t₂ m,
      Survey.insert_table ⟨nm, lb, hp, .vdict tbl, info⟩ name a =
        .ok ⟨nm, lb, hp, .vdict t₁, info⟩ ∧
      Survey.insert_table ⟨nm, lb, hp, .vdict t₁, info⟩ name b =
        .ok ⟨nm, lb, hp, .vdict t₂, info⟩ ∧
      dget t₂ name = some (.vdict m) ∧
      (∀ k, dget m k = (dget a k).or (dget b k)) ∧
      (∀ (k : String) (v' : PyVal),
        ∃ t₃ m', Survey.insert_table ⟨nm, lb, hp, .vdict t₂, info⟩ name [(k, v')] =
          .ok ⟨nm, lb, hp, .vdict t₃, info⟩ ∧
          dget t₃ name = some (.vdict m') ∧
          dget m' k = some v' ∧
          ∀ k', k' ≠ k → dget m' k' = dget m k') ∧
      Survey.insert_table ⟨nm, lb, hp, .vdict tbl, info⟩ name [] =
        .ok ⟨nm, lb, hp, .vdict (dset tbl name (.vdict [])), info⟩ ∧
      dget (dset tbl name (.vdict [])) name = some (.vdict []) := by
  have h0 : dget (dset tbl name (.vdict [])) name =
      some (.vdict ([] : List (String × PyVal))) := dget_dset_self ..
  obtain ⟨t₁, he₁, hg₁, _⟩ := insertPairs_spec a (dset tbl name (.vdict [])) [] h0
  obtain ⟨t₂, he₂, hg₂, _⟩ :=
    insertPairs_spec b t₁ (a.foldl (fun m kv => dset m kv.1 kv.2) []) hg₁
  have hdm1 : dmem t₁ name = true := by rw [dmem, hg₁]; rfl
  have hdm2 : dmem t₂ name = true := by rw [dmem, hg₂]; rfl
  have hA : ∀ k, dget (a.foldl (fun m kv => dset m kv.1 kv.2) []) k = dget a k := by
    intro k
    rw [dget_foldl_dset a [] ha k]
    cases dget a k <;> rfl
  refine ⟨t₁, t₂,
    b.foldl (fun m kv => dset m kv.1 kv.2) (a.foldl (fun m kv => dset m kv.1 kv.2) []),
    ?_, ?_, hg₂, ?_, ?_, ?_, h0⟩
  · simp only [Survey.insert_table, hfresh, Bool.false_eq_true, if_false, he₁]
  · simp only [Survey.insert_table, hdm1, if_true, he₂]
  · intro k
    rw [dget_foldl_dset b _ hb k, hA k]
    cases hak : dget a k with
    | some v =>
      have hkb : k ∉ dkeys b :=
        hdisj k (mem_dkeys_iff.mpr (by rw [hak]; rfl))
      rw [dget_eq_none_iff.mpr hkb]
      rfl
    | none =>
      cases dget b k <;> rfl
  · intro k v'
    obtain ⟨t₃, he₃, hg₃, _⟩ := insertPairs_spec [(k, v')] t₂ _ hg₂
    refine ⟨t₃, dset (b.foldl (fun m kv => dset m kv.1 kv.2)
        (a.foldl (fun m kv => dset m kv.1 kv.2) [])) k v',
      ?_, by simpa using hg₃, dget_dset_self .., fun k' hk' => dget_dset_ne _ v' hk'⟩
    simp only [Survey.insert_table, hdm2, if_true, he₃]
  · simp only [Survey.insert_table, hfresh, Bool.false_eq_true, if_false, insertPairs]

/-- C8, witness: the merge law at a fresh table `T` with attribute sets
`{x: 1}` and `{y: 2}`. -/
theorem surveys_C8_witness :
    dmem ([] : List (String × PyVal)) "T" = false ∧
    NodupKeys [("x", PyVal.int 1)] ∧ NodupKeys [("y", PyVal.int 2)] ∧
    (∃ t₁ t₂ m,
      Survey.insert_table ⟨.str "s", .none, .none, .vdict [], []⟩ "T"
          [("x", PyVal.int 1)] =
        .ok ⟨.str "s", .none, .none, .vdict t₁, []⟩ ∧
      Survey.insert_table ⟨.str "s", .none, .none, .vdict t₁, []⟩ "T"
          [("y", PyVal.int 2)] =
        .ok ⟨.str "s", .none, .none, .vdict t₂, []⟩ ∧
      dget t₂ "T" = some (.vdict m) ∧
      (∀ k, dget m k =
        (dget [("x", PyVal.int 1)] k).or (dget [("y", PyVal.int 2)] k)) ∧
      (∀ (k : String) (v' : PyVal),
        ∃ t₃ m', Survey.insert_table ⟨.str "s", .none, .none, .vdict t₂, []⟩ "T"
            [(k, v')] =
          .ok ⟨.str "s", .none, .none, .vdict t₃, []⟩ ∧
          dget t₃ "T" = some (.vdict m') ∧
          dget m' k = some v' ∧
          ∀ k', k' ≠ k → dget m' k' = dget m k') ∧
      Survey.insert_table ⟨.str "s", .none, .none, .vdict [], []⟩ "T" [] =
        .ok ⟨.str "s", .none, .none,
          .vdict (dset [] "T" (PyVal.vdict [])), []⟩ ∧
      dget (dset [] "T" (PyVal.vdict [])) "T" = some (PyVal.vdict [])) :=
  ⟨rfl, by decide, by decide,
   surveys_C8_register_table (.str "s") .none .none [] [] [("x", PyVal.int 1)]
     [("y", PyVal.int 2)] "T" rfl (by decide) (by decide)
     (by
       intro k hk
       simp only [dkeys, List.map_cons, List.map_nil, List.mem_singleton] at hk
       subst hk
       decide)⟩

/-- C9: physical table resolution in `get_values` — the store is consulted
first (even when a registry entry exists); on a store miss the registry
entry's `Rdata_table` attribute is used as the physical key; and when
neither resolves (the name is in neither the store nor the registry, the
registry entry lacks `Rdata_table`, or the `Rdata_table` key is itself not
in the store) the call fails with `NotFound` (the `KeyError`). -/
theorem surveys_C9_resolution (store : Store) (s : Survey) (table : String) :
    (∀ df, dget store table = some df →
      Survey.get_values store s Option.none table =
        .ok (renameIdentFirst (lowerCols df))) ∧
    (∀ tbl attrs r df', dget store table = Option.none →
      s.tables = .vdict tbl → dget tbl table = some (.vdict attrs) →
      dget attrs "Rdata_table" = some (.str r) → dget store r = some df' →
      Survey.get_values store s Option.none table =
        .ok (renameIdentFirst (lowerCols df'))) ∧
    (∀ tbl, dget store table = Option.none → s.tables = .vdict tbl →
      dget tbl table = Option.none →
      Survey.get_values store s Option.none table = .error .keyError) ∧
    (∀ tbl attrs, dget store table = Option.none → s.tables = .vdict tbl →
      dget tbl table = some (.vdict attrs) →
      dget attrs "Rdata_table" = Option.none →
      Survey.get_values store s Option.none table = .error .keyError) ∧
    (∀ tbl attrs r, dget store table = Option.none → s.tables = .vdict tbl →
      dget tbl table = some (.vdict attrs) →
      dget attrs "Rdata_table" = some (.str r) → dget store r = Option.none →
      Survey.get_values store s Option.none table = .error .keyError) := by
  refine ⟨?_, ?_, ?_, ?_, ?_⟩
  · intro df h
    simp only [Survey.get_values, Survey.resolve_table, h, if_true]
  · intro tbl attrs r df' h1 h2 h3 h4 h5
    simp only [Survey.get_values, Survey.resolve_table, h1, h2, h3, h4, h5,
      if_true]
  · intro tbl h1 h2 h3
    simp only [Survey.get_values, Survey.resolve_table, h1, h2, h3]
  · intro tbl attrs h1 h2 h3 h4
    simp only [Survey.get_values, Survey.resolve_table, h1, h2, h3, h4]
  · intro tbl attrs r h1 h2 h3 h4 h5
    simp only [Survey.get_values, Survey.resolve_table, h1, h2, h3, h4, h5]

/-- C9, witness: the three resolution behaviours at concrete inputs — a
direct store hit (even though the registry also names the table), the
`Rdata_table` fallback, and the `NotFound` failure when neither resolves. -/
theorem surveys_C9_witness :
    Survey.get_values [("T", [("A", [PyVal.int 1])])]
        ⟨.str "s", .none, .none,
          .vdict [("T", .vdict [("Rdata_table", .str "R")])], []⟩
        Option.none "T" =
      .ok (renameIdentFirst (lowerCols [("A", [PyVal.int 1])])) ∧
    Survey.get_values [("R", [("B", [PyVal.int 2])])]
        ⟨.str "s", .none, .none,
          .vdict [("T", .vdict [("Rdata_table", .str "R")])], []⟩
        Option.none "T" =
      .ok (renameIdentFirst (lowerCols [("B", [PyVal.int 2])])) ∧
    Survey.get_values [] ⟨.str "s", .none, .none, .vdict [], []⟩
        Option.none "T" = .error .keyError :=
  ⟨(surveys_C9_resolution [("T", [("A", [PyVal.int 1])])]
      ⟨.str "s", .none, .none,
        .vdict [("T", .vdict [("Rdata_table", .str "R")])], []⟩ "T").1
    [("A", [PyVal.int 1])] rfl,
   (surveys_C9_resolution [("R", [("B", [PyVal.int 2])])]
      ⟨.str "s", .none, .none,
        .vdict [("T", .vdict [("Rdata_table", .str "R")])], []⟩ "T").2.1
    [("T", .vdict [("Rdata_table", .str "R")])] [("Rdata_table", .str "R")]
    "R" [("B", [PyVal.int 2])] rfl rfl rfl rfl rfl,
   (surveys_C9_resolution [] ⟨.str "s", .none, .none, .vdict [], []⟩ "T").2.2.1
    [] rfl rfl rfl⟩

/-- C4: with the default `lowercase` and `rename_ident`, `get_values` first
lowercases every column label and then renames exactly the first label
matching `ident` + 2–4 digits to `ident`, stopping there — any later
matching column keeps its lowercased name (the `post` segment is returned
untouched, whatever it contains); in particular the table with columns
`["IDENT08", "Salaire"]` comes back with columns `["ident", "salaire"]`. -/
theorem surveys_C4_lowercase_rename_ident :
    (∀ (store : Store) (s : Survey) (table : String) (df₀ : DataFrame)
       (pre : DataFrame) (c : String) (d : List PyVal) (post : DataFrame),
      Survey.resolve_table store s table = .ok df₀ →
      lowerCols df₀ = pre ++ (c, d) :: post →
      (∀ p ∈ pre, identMatch p.1 = false) →
      identMatch c = true →
      Survey.get_values store s Option.none table =
        .ok (pre ++ ("ident", d) :: post)) ∧
    Survey.get_values
        [("T", [("IDENT08", [PyVal.int 1]), ("Salaire", [PyVal.int 2])])]
        ⟨.str "s", .none, .none, .vdict [], []⟩ Option.none "T" =
      .ok [("ident", [PyVal.int 1]), ("salaire", [PyVal.int 2])] := by
  constructor
  · intro store s table df₀ pre c d post hres hdecomp hpre hc
    simp only [Survey.get_values, hres, if_true]
    rw [hdecomp, renameIdentFirst_append pre c d post hpre hc]
  · rfl

/-- C4, witness: the single-rename law applied at a concrete table with two
ident-like columns, `["x", "IDENT08", "IDENT09"]`: only the first match is
renamed; the later `ident09` keeps its lowercased name. -/
theorem surveys_C4_witness :
    (∀ p ∈ [("x", [PyVal.int 0])], identMatch p.1 = false) ∧
    identMatch "ident08" = true ∧
    Survey.get_values
        [("U", [("x", [PyVal.int 0]), ("IDENT08", [PyVal.int 1]),
                ("IDENT09", [PyVal.int 2])])]
        ⟨.str "s", .none, .none, .vdict [], []⟩ Option.none "U" =
      .ok [("x", [PyVal.int 0]), ("ident", [PyVal.int 1]),
           ("ident09", [PyVal.int 2])] :=
  ⟨fun p hp => by
      simp only [List.mem_singleton] at hp
      subst hp
      rfl,
   rfl,
   surveys_C4_lowercase_rename_ident.1
     [("U", [("x", [PyVal.int 0]), ("IDENT08", [PyVal.int 1]),
             ("IDENT09", [PyVal.int 2])])]
     ⟨.str "s", .none, .none, .vdict [], []⟩ "U"
     [("x", [PyVal.int 0]), ("IDENT08", [PyVal.int 1]), ("IDENT09", [PyVal.int 2])]
     [("x", [PyVal.int 0])] "ident08" [PyVal.int 1] [("ident09", [PyVal.int 2])]
     rfl rfl
     (fun p hp => by
       simp only [List.mem_singleton] at hp
       subst hp
       rfl)
     rfl⟩

theorem contains_eq_false_iff {l : List String} {a : String} :
    l.contains a = false ↔ a ∉ l := by
  rw [Bool.eq_false_iff]
  exact not_congr List.elem_iff

theorem dkeys_map_pair {α : Type} (f : String → α) (sel : List String) :
    dkeys (sel.map (fun v => (v, f v))) = sel := by
  induction sel with
  | nil => rfl
  | cons v rest ih => simp only [List.map_cons, dkeys] at ih ⊢; rw [ih]

/-- C5: `get_values` with an explicit variables list — when some requested
variable is missing from the (lowercased, ident-renamed) columns the call
fails with `MissingVariables` carrying exactly the missing set (membership:
requested but not available); otherwise it returns a projection whose
columns are exactly the intersection of the requested variables and the
available columns (as a duplicate-free set, order unspecified), each
projected column carrying the data of the corresponding table column. -/
theorem surveys_C5_missing_variables (store : Store) (s : Survey) (table : String)
    (vars : List String) (df₀ : DataFrame)
    (hres : Survey.resolve_table store s table = .ok df₀) :
    ((∃ v ∈ vars, v ∉ dkeys (renameIdentFirst (lowerCols df₀))) →
      ∃ miss, Survey.get_values store s (some vars) table =
          .error (.missingVariables miss) ∧
        ∀ u, u ∈ miss ↔ u ∈ vars ∧ u ∉ dkeys (renameIdentFirst (lowerCols df₀))) ∧
    ((∀ v ∈ vars, v ∈ dkeys (renameIdentFirst (lowerCols df₀))) →
      ∃ proj, Survey.get_values store s (some vars) table = .ok proj ∧
        NodupKeys proj ∧
        (∀ u, u ∈ dkeys proj ↔
          u ∈ vars ∧ u ∈ dkeys (renameIdentFirst (lowerCols df₀))) ∧
        (∀ u ∈ dkeys proj, dget proj u = dget (renameIdentFirst (lowerCols df₀)) u)) := by
  constructor
  · intro hmiss
    obtain ⟨v, hv, hvc⟩ := hmiss
    have hcb : (dkeys (renameIdentFirst (lowerCols df₀))).contains v = false :=
      contains_eq_false_iff.mpr hvc
    have hd : v ∈ (pySetList vars).filter
        (fun u => !(dkeys (renameIdentFirst (lowerCols df₀))).contains u) :=
      List.mem_filter.mpr ⟨mem_pySetList.mpr hv, by rw [hcb]; rfl⟩
    have hne : (pySetList vars).filter
        (fun u => !(dkeys (renameIdentFirst (lowerCols df₀))).contains u) ≠ [] := by
      intro hnil
      rw [hnil] at hd
      exact List.not_mem_nil v hd
    refine ⟨(pySetList vars).filter
        (fun u => !(dkeys (renameIdentFirst (lowerCols df₀))).contains u), ?_, ?_⟩
    · simp only [Survey.get_values, hres, if_true]
      rw [if_neg hne]
    · intro u
      rw [List.mem_filter, mem_pySetList, Bool.not_eq_true', contains_eq_false_iff]
  · intro hall
    have hdiff : (pySetList vars).filter
        (fun u => !(dkeys (renameIdentFirst (lowerCols df₀))).contains u) = [] := by
      rw [List.filter_eq_nil_iff]
      intro a ha
      have hc : (dkeys (renameIdentFirst (lowerCols df₀))).contains a = true :=
        List.elem_iff.mpr (hall a (mem_pySetList.mp ha))
      rw [Bool.not_eq_true, hc]
      rfl
    refine ⟨((pySetList vars).filter
        (fun u => (dkeys (renameIdentFirst (lowerCols df₀))).contains u)).map
        (fun u => (u, (dget (renameIdentFirst (lowerCols df₀)) u).getD [])), ?_, ?_, ?_, ?_⟩
    · simp only [Survey.get_values, hres, if_true]
      rw [if_pos hdiff]
    · show (dkeys _).Nodup
      rw [dkeys_map_pair]
      exact (nodup_pySetList vars).filter _
    · intro u
      rw [dkeys_map_pair, List.mem_filter, mem_pySetList, List.elem_iff]
    · intro u hu
      rw [dkeys_map_pair] at hu
      rw [dget_map_pair
        (fun u => (dget (renameIdentFirst (lowerCols df₀)) u).getD []) _ u,
        if_pos hu]
      have hudf : u ∈ dkeys (renameIdentFirst (lowerCols df₀)) :=
        List.elem_iff.mp (List.mem_filter.mp hu).2
      obtain ⟨w, hw⟩ := Option.isSome_iff_exists.mp (mem_dkeys_iff.mp hudf)
      rw [hw]
      rfl

/-- C5, witness: the two selection behaviours at a concrete table `T` with
columns `{a, c}`: requesting `["a", "b"]` fails with `MissingVariables`
naming exactly `{"b"}`, and requesting `["a"]` projects column `a`. -/
theorem surveys_C5_witness :
    (∃ v ∈ ["a", "b"], v ∉ dkeys (renameIdentFirst (lowerCols
      [("a", [PyVal.int 1]), ("c", [PyVal.int 3])]))) ∧
    (∃ miss, Survey.get_values [("T", [("a", [PyVal.int 1]), ("c", [PyVal.int 3])])]
        ⟨.str "s", .none, .none, .vdict [], []⟩ (some ["a", "b"]) "T" =
          .error (.missingVariables miss) ∧
      ∀ u, u ∈ miss ↔ u ∈ ["a", "b"] ∧ u ∉ dkeys (renameIdentFirst (lowerCols
        [("a", [PyVal.int 1]), ("c", [PyVal.int 3])]))) ∧
    (∃ proj, Survey.get_values [("T", [("a", [PyVal.int 1]), ("c", [PyVal.int 3])])]
        ⟨.str "s", .none, .none, .vdict [], []⟩ (some ["a"]) "T" = .ok proj ∧
      NodupKeys proj ∧
      (∀ u, u ∈ dkeys proj ↔ u ∈ ["a"] ∧ u ∈ dkeys (renameIdentFirst (lowerCols
        [("a", [PyVal.int 1]), ("c", [PyVal.int 3])]))) ∧
      (∀ u ∈ dkeys proj, dget proj u = dget (renameIdentFirst (lowerCols
        [("a", [PyVal.int 1]), ("c", [PyVal.int 3])])) u)) :=
  ⟨⟨"b", by decide, by decide⟩,
   (surveys_C5_missing_variables
      [("T", [("a", [PyVal.int 1]), ("c", [PyVal.int 3])])]
      ⟨.str "s", .none, .none, .vdict [], []⟩ "T" ["a", "b"]
      [("a", [PyVal.int 1]), ("c", [PyVal.int 3])] rfl).1
     ⟨"b", by decide, by decide⟩,
   (surveys_C5_missing_variables
      [("T", [("a", [PyVal.int 1]), ("c", [PyVal.int 3])])]
      ⟨.str "s", .none, .none, .vdict [], []⟩ "T" ["a"]
      [("a", [PyVal.int 1]), ("c", [PyVal.int 3])] rfl).2
     (by intro v hv; simp only [List.mem_singleton] at hv; subst hv; decide)⟩

/-- C6: `find_tables` fails with `InvalidArgument` when the variable is
absent; otherwise, over any list of table names (all present in the store,
the cache being coherent with the store), it returns exactly the names of
the tables whose column list contains the variable, in input order; calling
it again with the same arguments returns the identical result with the
cache and world unchanged and zero column-index computations, and the first
call performs exactly one computation per newly cached table (the cache
grows by one distinct entry per computation). -/
theorem surveys_C6_find_tables (store : Store) (s : Survey) (w : PyWorld)
    (v : String) (ts : List String)
    (hcoh : Coherent store w.tables_index)
    (hres : ∀ t ∈ ts, (dget store t).isSome) :
    Survey.find_tables store w s Option.none (some ts) = .error .assertionError ∧
    ∃ (w₁ : PyWorld) (n₁ : Nat),
      Survey.find_tables store w s (some v) (some ts) =
        .ok (ts.filter (fun t => (storeCols store t).contains v), w₁, n₁) ∧
      Survey.find_tables store w₁ s (some v) (some ts) =
        .ok (ts.filter (fun t => (storeCols store t).contains v), w₁, 0) ∧
      w₁.tables_index.length = w.tables_index.length + n₁ ∧
      (NodupKeys w.tables_index → NodupKeys w₁.tables_index) := by
  refine ⟨rfl, ?_⟩
  obtain ⟨tidx', k, heq, hcoh', hall, _, hlen, hnd⟩ :=
    findLoop_spec store s v ts w.tables_index [] 0 hcoh hres
  refine ⟨⟨tidx'⟩, k, ?_, ?_, hlen, hnd⟩
  · simp only [Survey.find_tables, Survey.tablesIndexOf]
    rw [heq]
    simp only [List.nil_append, Nat.zero_add]
    rfl
  · simp only [Survey.find_tables, Survey.tablesIndexOf]
    rw [findLoop_cached store s v ts tidx' [] 0 hcoh' hall]
    simp only [List.nil_append]
    rfl

/-- C6, witness: the lookup law at the spec's example — a store with tables
`A` (column `y`) and `B` (column `x`): `find_tables` without a variable
fails, `find_tables("x", ["A", "B"])` from an empty cache returns `["B"]`,
and the repeated call returns the identical result from the cache with zero
computations. -/
theorem surveys_C6_witness :
    Survey.find_tables [("A", [("y", [])]), ("B", [("x", [])])] ⟨[]⟩
        ⟨.str "s", .none, .none, .vdict [], []⟩ Option.none (some ["A", "B"]) =
      .error .assertionError ∧
    ∃ (w₁ : PyWorld) (n₁ : Nat),
      Survey.find_tables [("A", [("y", [])]), ("B", [("x", [])])] ⟨[]⟩
          ⟨.str "s", .none, .none, .vdict [], []⟩ (some "x") (some ["A", "B"]) =
        .ok (["A", "B"].filter
          (fun t => (storeCols [("A", [("y", [])]), ("B", [("x", [])])] t).contains "x"),
          w₁, n₁) ∧
      Survey.find_tables [("A", [("y", [])]), ("B", [("x", [])])] w₁
          ⟨.str "s", .none, .none, .vdict [], []⟩ (some "x") (some ["A", "B"]) =
        .ok (["A", "B"].filter
          (fun t => (storeCols [("A", [("y", [])]), ("B", [("x", [])])] t).contains "x"),
          w₁, 0) ∧
      w₁.tables_index.length = (⟨[]⟩ : PyWorld).tables_index.length + n₁ ∧
      (NodupKeys (⟨[]⟩ : PyWorld).tables_index → NodupKeys w₁.tables_index) :=
  surveys_C6_find_tables [("A", [("y", [])]), ("B", [("x", [])])]
    ⟨.str "s", .none, .none, .vdict [], []⟩ ⟨[]⟩ "x" ["A", "B"]
    (by intro t cs h; simp [dget] at h)
    (by decide)
